import Mathlib

/-
Verification of the ViT-Hand-Pose-Estimation repository.

Shallow embedding of the two source files:
  * src/models/model.py : PatchEmbedding, MultiHeadAttention, ResidualAdd,
    FeedForwardBlock, EncoderBlock, TransformerEncoder, ClassificationHead,
    IoULoss, ViT
  * src/main.py : the config dict, parse_args, the train loop (early
    stopping, checkpointing, learning-rate scheduling) and main.

Real-valued tensor arithmetic is modelled over the exact fields: the
IoU loss, the running means and the rounding of the early-stopping logic
are rational computations (ℚ), while the attention softmax, which uses
the exponential, is modelled over ℝ.  Floating-point rounding error is
abstracted away throughout; the formulas are the exact-arithmetic
meaning of the tensor expressions in the source.

Tensors are modelled as total functions from (unbounded) natural-number
indices to scalars together with the shape information that the theorems
track explicitly; sums run over `Finset.range` of the relevant extents.
-/

namespace ViTPose

/-! ### Shape semantics of src/models/model.py

Each `nn.Module` of the model also has a shape-level meaning: the shape
of the output tensor as a function of the shape of the input tensor.
Shapes are lists of dimension extents, batch dimension first. -/

/-- Output spatial extent of `nn.Conv2d` with kernel size `k`, stride `s`,
no padding and no dilation, on an input of spatial extent `h`
(torch semantics: `(h - k) / s + 1` with integer division). -/
def conv2dOut (k s h : ℕ) : ℕ := (h - k) / s + 1

/-- Shape of `PatchEmbedding.forward` (model.py lines 32-40): the
`Conv2d(in_channels, emb_size, kernel_size=patch_size, stride=patch_size)`
projection followed by `Rearrange "b e (h) (w) -> b (h w) e"`, the
prepended class token (`torch.cat`, adding one token) and the position
embedding (shape preserving).  On a shape that is not rank 4 the module
is not applicable; the shape function is the identity there. -/
def patchEmbeddingShape (patchSize embSize : ℕ) : List ℕ → List ℕ
  | [b, _, h, w] =>
      [b, conv2dOut patchSize patchSize h * conv2dOut patchSize patchSize w + 1, embSize]
  | l => l

/-- Shape of one `EncoderBlock` (model.py lines 107-141): two residual
branches, each of `LayerNorm` (shape preserving) and either
`MultiHeadAttention` (Linear `emb → emb`, head split and merge, output
projection: shape preserving) or `FeedForwardBlock`
(Linear `emb → 4*emb → emb`: shape preserving). -/
def encoderBlockShape : List ℕ → List ℕ := fun l => l

/-- Shape of `TransformerEncoder` (model.py lines 144-153): `depth`
stacked `EncoderBlock`s. -/
def transformerEncoderShape (depth : ℕ) : List ℕ → List ℕ :=
  fun l => encoderBlockShape^[depth] l

/-- Shape of `ClassificationHead` (model.py lines 156-162):
`Reduce "b n e -> b e"` (mean over the token axis), `LayerNorm` (shape
preserving) and `Linear(emb_size, out_channels)`. -/
def classificationHeadShape (outChannels : ℕ) : List ℕ → List ℕ
  | [b, _, _] => [b, outChannels]
  | l => l

/-- Shape of the full `ViT` model (model.py lines 191-216):
`PatchEmbedding`, then `TransformerEncoder`, then `ClassificationHead`. -/
def viTShape (patchSize embSize outChannels depth : ℕ) (l : List ℕ) : List ℕ :=
  classificationHeadShape outChannels
    (transformerEncoderShape depth (patchEmbeddingShape patchSize embSize l))

/-! ### Value semantics of PatchEmbedding (model.py lines 8-40)

One batch sample is a function `channel → row → col → ℚ`; a batch adds a
leading index.  The convolution with `kernel_size = stride = patch_size`
computes, for output position `(i, j)`, a linear projection of the
non-overlapping `patch_size × patch_size` patch with top-left corner
`(i * patch_size, j * patch_size)`. -/

/-- Value of the `Conv2d(in_channels, emb_size, kernel_size=patch_size,
stride=patch_size)` projection at output channel `e` and output position
`(i, j)`: bias plus the weighted sum over the input patch with top-left
corner `(i * p, j * p)`. -/
def conv2dPatchProj (inC p : ℕ) (wt : ℕ → ℕ → ℕ → ℕ → ℚ) (bias : ℕ → ℚ)
    (x : ℕ → ℕ → ℕ → ℚ) (e i j : ℕ) : ℚ :=
  bias e + ∑ c in Finset.range inC, ∑ a in Finset.range p, ∑ d in Finset.range p,
    wt e c a d * x c (i * p + a) (j * p + d)

/-- Number of tokens produced by `PatchEmbedding.forward` on an input of
spatial extents `h × w`: the flattened conv output plus the class token. -/
def patchTokenCount (p h w : ℕ) : ℕ := conv2dOut p p h * conv2dOut p p w + 1

/-- Value of token `t`, embedding coordinate `e`, of
`PatchEmbedding.forward` (model.py lines 32-40) on batch sample `b` of
input `x` with spatial extents `h × w`: token 0 is the class token
(prepended by `torch.cat`), token `t + 1` is patch `t` of the flattened
`Rearrange "b e (h) (w) -> b (h w) e"` conv output (row-major patch
order), and the position embedding is added to every token. -/
def patchEmbeddingTokens (inC p h w : ℕ) (wt : ℕ → ℕ → ℕ → ℕ → ℚ)
    (bias clsTok : ℕ → ℚ) (pos : ℕ → ℕ → ℚ) (x : ℕ → ℕ → ℕ → ℕ → ℚ)
    (b t e : ℕ) : ℚ :=
  match t with
  | 0 => clsTok e + pos 0 e
  | t' + 1 =>
      conv2dPatchProj inC p wt bias (x b) e
        (t' / conv2dOut p p w) (t' % conv2dOut p p w) + pos (t' + 1) e

/-! ### IoULoss (model.py lines 165-188) -/

/-- The constant `self.EPSILON = 1e-6` of `IoULoss.__init__`. -/
def iouEPSILON : ℚ := 1 / 1000000

/-- Meaning of `IoULoss.op_sum`, `x.sum(-1).sum(-1)`, on a rank-4 tensor
of shape `(B, K, H, W)`: the sum over the last two axes. -/
def opSum (H W : ℕ) (x : ℕ → ℕ → ℕ → ℕ → ℚ) (b k : ℕ) : ℚ :=
  ∑ h in Finset.range H, ∑ w in Finset.range W, x b k h w

/-- Meaning of `IoULoss.forward(y_pred, y_true)` on rank-4 inputs of shape
`(B, K, H, W)` (a batch of per-keypoint heatmaps):
`inter = op_sum(y_true * y_pred)`,
`union = op_sum(y_true ** 2) + op_sum(y_pred ** 2) - op_sum(y_true * y_pred)`,
`iou = (inter + EPSILON) / (union + EPSILON)`, then
`1 - torch.mean(iou)` where `torch.mean` averages the `(B, K)` tensor
over all of its `B * K` entries. -/
def iouForward (B K H W : ℕ) (yPred yTrue : ℕ → ℕ → ℕ → ℕ → ℚ) : ℚ :=
  1 - (∑ b in Finset.range B, ∑ k in Finset.range K,
        (opSum H W (fun b2 k2 h2 w2 => yTrue b2 k2 h2 w2 * yPred b2 k2 h2 w2) b k
            + iouEPSILON)
          / (opSum H W (fun b2 k2 h2 w2 => yTrue b2 k2 h2 w2 ^ 2) b k
              + opSum H W (fun b2 k2 h2 w2 => yPred b2 k2 h2 w2 ^ 2) b k
              - opSum H W (fun b2 k2 h2 w2 => yTrue b2 k2 h2 w2 * yPred b2 k2 h2 w2) b k
              + iouEPSILON))
      / ((B * K : ℕ) : ℚ)

/-! ### MultiHeadAttention (model.py lines 43-82)

The forward pass is modelled over ℝ because the softmax uses the
exponential.  `x` is a rank-3 input `(batch, token, embedding)`.  The
`Dropout(dropout)` layer with the default probability `dropout = 0`
(the only value the repository ever instantiates) is the identity and
is therefore elided. -/

/-- Configuration of a `MultiHeadAttention` module: `emb_size` and
`num_heads` from `__init__`. -/
structure MHACfg where
  embSize : ℕ
  numHeads : ℕ

/-- Learned parameters of a `MultiHeadAttention` module: the weight
matrices and biases of the `keys`, `queries`, `values` and `projection`
`nn.Linear(emb_size, emb_size)` layers. -/
structure MHAWeights where
  Wq : ℕ → ℕ → ℝ
  Wk : ℕ → ℕ → ℝ
  Wv : ℕ → ℕ → ℝ
  Wp : ℕ → ℕ → ℝ
  bq : ℕ → ℝ
  bk : ℕ → ℝ
  bv : ℕ → ℝ
  bp : ℕ → ℝ

/-- The per-head dimension `d` of the rearrangement
`"b n (h d) -> b h n d"` with `h = num_heads`. -/
def dHead (cfg : MHACfg) : ℕ := cfg.embSize / cfg.numHeads

/-- Meaning of `nn.Linear(dIn, _)`: `out o = bias o + ∑ i, w o i * v i`. -/
noncomputable def linearMap (dIn : ℕ) (w : ℕ → ℕ → ℝ) (bias : ℕ → ℝ)
    (v : ℕ → ℝ) (o : ℕ) : ℝ :=
  bias o + ∑ i in Finset.range dIn, w o i * v i

/-- `keys = rearrange(self.keys(x), "b n (h d) -> b h n d")`
(model.py line 62): head `h`, coordinate `d` reads flat coordinate
`h * dHead + d` of the linear layer output. -/
noncomputable def mhaKeys (cfg : MHACfg) (w : MHAWeights) (x : ℕ → ℕ → ℕ → ℝ)
    (b h t d : ℕ) : ℝ :=
  linearMap cfg.embSize w.Wk w.bk (x b t) (h * dHead cfg + d)

/-- `queries` (model.py line 63), rearranged like `keys`. -/
noncomputable def mhaQueries (cfg : MHACfg) (w : MHAWeights) (x : ℕ → ℕ → ℕ → ℝ)
    (b h t d : ℕ) : ℝ :=
  linearMap cfg.embSize w.Wq w.bq (x b t) (h * dHead cfg + d)

/-- `values` (model.py line 64), rearranged like `keys`. -/
noncomputable def mhaValues (cfg : MHACfg) (w : MHAWeights) (x : ℕ → ℕ → ℕ → ℝ)
    (b h t d : ℕ) : ℝ :=
  linearMap cfg.embSize w.Wv w.bv (x b t) (h * dHead cfg + d)

/-- `energy = torch.einsum("bhqd, bhkd -> bhqk", queries, keys)`
(model.py line 67). -/
noncomputable def mhaEnergy (cfg : MHACfg) (w : MHAWeights) (x : ℕ → ℕ → ℕ → ℝ)
    (b h q k : ℕ) : ℝ :=
  ∑ d in Finset.range (dHead cfg),
    mhaQueries cfg w x b h q d * mhaKeys cfg w x b h k d

/-- `F.softmax(energy, dim=1)` (model.py line 75).  `energy` has shape
`(b, h, q, k)`, so `dim=1` normalises over the HEAD axis: the
denominator sums the exponentials over `h`, not over the key axis. -/
noncomputable def mhaSoftmax (cfg : MHACfg) (w : MHAWeights) (x : ℕ → ℕ → ℕ → ℝ)
    (b h q k : ℕ) : ℝ :=
  Real.exp (mhaEnergy cfg w x b h q k)
    / ∑ h2 in Finset.range cfg.numHeads, Real.exp (mhaEnergy cfg w x b h2 q k)

/-- `attention = F.softmax(energy, dim=1) / scaling` with
`scaling = self.emb_size ** (1 / 2)` (model.py lines 74-75): the
division by `sqrt(emb_size)` happens AFTER the softmax, and the scaling
constant is the square root of the full embedding size, not of the
per-head dimension. -/
noncomputable def mhaAttention (cfg : MHACfg) (w : MHAWeights) (x : ℕ → ℕ → ℕ → ℝ)
    (b h q k : ℕ) : ℝ :=
  mhaSoftmax cfg w x b h q k / Real.sqrt (cfg.embSize : ℝ)

/-- `out = torch.einsum("bhal, bhlv -> bhav ", attention, values)`
(model.py line 79), for a sequence of `n` tokens. -/
noncomputable def mhaOutHeads (cfg : MHACfg) (w : MHAWeights) (n : ℕ)
    (x : ℕ → ℕ → ℕ → ℝ) (b h a v : ℕ) : ℝ :=
  ∑ l in Finset.range n, mhaAttention cfg w x b h a l * mhaValues cfg w x b h l v

/-- `MultiHeadAttention.forward` with `mask=None` (model.py lines 60-82):
the head outputs are merged back by `rearrange(out, "b h n d -> b n (h d)")`
and passed through the `projection` linear layer. -/
noncomputable def mhaForward (cfg : MHACfg) (w : MHAWeights) (n : ℕ)
    (x : ℕ → ℕ → ℕ → ℝ) (b t f : ℕ) : ℝ :=
  linearMap cfg.embSize w.Wp w.bp
    (fun g => mhaOutHeads cfg w n x b (g / dHead cfg) t (g % dHead cfg)) f

/-- The Python error raised by the masking step: line 70 of model.py
calls `energy.mask_fill(...)`, but `torch.Tensor` has no attribute
`mask_fill` (the PyTorch API provides `masked_fill` and `masked_fill_`),
so a non-None `mask` raises `AttributeError` before any masked output
is produced. -/
def maskFillErrorMsg : String :=
  "AttributeError: torch.Tensor object has no attribute mask_fill"

/-- `MultiHeadAttention.forward` with its optional `mask` argument
(model.py lines 60-82), modelled as `Except`: with `mask=None` the pass
succeeds with the unmasked attention output; with any non-None mask the
attribute lookup `energy.mask_fill` fails (see `maskFillErrorMsg`). -/
noncomputable def mhaForwardMasked (cfg : MHACfg) (w : MHAWeights) (n : ℕ)
    (x : ℕ → ℕ → ℕ → ℝ) :
    Option (ℕ → ℕ → ℕ → ℕ → Bool) → Except String (ℕ → ℕ → ℕ → ℝ)
  | none => Except.ok (mhaForward cfg w n x)
  | some _ => Except.error maskFillErrorMsg

/-- Concrete instantiation for the concrete-input theorems:
`emb_size = 1`, `num_heads = 1`. -/
def cexCfg : MHACfg := { embSize := 1, numHeads := 1 }

/-- All-zero weights for the concrete-input theorems. -/
def cexW : MHAWeights :=
  { Wq := fun _ _ => 0, Wk := fun _ _ => 0, Wv := fun _ _ => 0, Wp := fun _ _ => 0
  , bq := fun _ => 0, bk := fun _ => 0, bv := fun _ => 0, bp := fun _ => 0 }

/-- All-zero input for the concrete-input theorems. -/
def cexX : ℕ → ℕ → ℕ → ℝ := fun _ _ _ => 0

/-! ### The training loop (src/main.py, `train`, lines 97-170)

The per-epoch train and validation losses appended by `epoch_train` and
`epoch_eval` are exogenous inputs of the loop, modelled as sequences
`tl vl : ℕ → ℚ` (`tl e = loss["train"][e]`, `vl e = loss["val"][e]`).
The observable actions of the loop are modelled as a trace of events. -/

/-- Observable events of one run of `train`: the `epoch_train` pass, the
`epoch_eval` pass, a `scheduler.step(train_loss)` call, and a
`torch.save(..., name)` call. -/
inductive TrainEvent where
  | train : ℕ → TrainEvent
  | val : ℕ → TrainEvent
  | sched : ℚ → TrainEvent
  | save : String → TrainEvent

/-- The parameters `train` is called with: `epochs`,
`early_stopping_avg`, `early_stopping_precision`,
`early_stopping_epochs`, `checkpoint_frequency`, and whether a
(non-None) scheduler was passed. -/
structure TrainCfg where
  epochs : ℕ
  avg : ℕ
  prec : ℕ
  esEpochs : ℕ
  freq : ℕ
  hasScheduler : Bool

/-- Rounding of a rational to the nearest integer, ties to even: the
rounding mode of `np.round` (exact-arithmetic semantics). -/
def roundHalfEven (x : ℚ) : ℤ :=
  let n := ⌊x⌋
  let r := x - (n : ℚ)
  if r < 1 / 2 then n
  else if 1 / 2 < r then n + 1
  else if n % 2 = 0 then n else n + 1

/-- `np.round(x, prec)`: round to `prec` decimal places, ties to even. -/
def npRound (prec : ℕ) (x : ℚ) : ℚ :=
  (roundHalfEven (x * 10 ^ prec) : ℚ) / 10 ^ prec

/-- `np.mean` of the slice `[a, b)` of a sequence. -/
def meanRange (v : ℕ → ℚ) (a b : ℕ) : ℚ :=
  (∑ i in Finset.Ico a b, v i) / ((b - a : ℕ) : ℚ)

/-- `np.round(np.mean(loss["val"][-early_stopping_avg:]),
early_stopping_precision)` as evaluated after epoch `e` (main.py lines
156-158): the rounded mean of the last `avg` validation losses. -/
def valAvgAt (cfg : TrainCfg) (vl : ℕ → ℚ) (e : ℕ) : ℚ :=
  npRound cfg.prec (meanRange vl (e + 1 - cfg.avg) (e + 1))

/-- The early-stopping state update of epoch `e` (main.py lines 150-163)
on the state `(min_val_loss, no_decrease_epochs)`:
during the first `early_stopping_avg` epochs the minimum is the rounded
mean of all validation losses so far and the counter is reset; afterwards
the counter increments when the rounded mean of the last
`early_stopping_avg` validation losses fails to drop below the running
minimum (`val_loss >= min_val_loss`) and otherwise the minimum is
updated and the counter reset. -/
def esUpdate (cfg : TrainCfg) (vl : ℕ → ℚ) (e : ℕ) (s : ℚ × ℕ) : ℚ × ℕ :=
  if e < cfg.avg then (npRound cfg.prec (meanRange vl 0 (e + 1)), 0)
  else if s.1 ≤ valAvgAt cfg vl e then (s.1, s.2 + 1)
  else (valAvgAt cfg vl e, 0)

/-- The early-stopping state entering epoch `e` (so `esState cfg vl 0`
is the initial state; Python leaves `min_val_loss` undefined before the
first epoch, the model uses `0`, which epoch 0 overwrites whenever
`early_stopping_avg > 0`). -/
def esState (cfg : TrainCfg) (vl : ℕ → ℚ) : ℕ → ℚ × ℕ
  | 0 => (0, 0)
  | e + 1 => esUpdate cfg vl e (esState cfg vl e)

/-- The running minimum `min_val_loss` entering epoch `e`. -/
def runningMin (cfg : TrainCfg) (vl : ℕ → ℚ) (e : ℕ) : ℚ :=
  (esState cfg vl e).1

/-- Python `str.zfill`: left-pad with zeros to the given width. -/
def zfill (width : ℕ) (s : String) : String :=
  String.mk (List.replicate (width - s.length) '0') ++ s

/-- The checkpoint file name of main.py line 147:
`"weights/ViT_model_{}".format(str(epoch + 1).zfill(3))`. -/
def ckptName (k : ℕ) : String :=
  "weights/ViT_model_" ++ zfill 3 (toString k)

/-- The final checkpoint name of main.py line 169. -/
def finalCkptName : String := "weights/ViT_model_final.pth"

/-- The events of the body of the loop for epoch `e` (main.py lines
112-148): the train pass, the validation pass, the scheduler step with
this epoch's training loss (`loss["train"][-1]`) when a scheduler was
given, and the checkpoint save when `(epoch + 1) % checkpoint_frequency == 0`. -/
def epochBody (cfg : TrainCfg) (tl : ℕ → ℚ) (e : ℕ) : List TrainEvent :=
  [TrainEvent.train e, TrainEvent.val e]
    ++ (if cfg.hasScheduler then [TrainEvent.sched (tl e)] else [])
    ++ (if (e + 1) % cfg.freq = 0 then [TrainEvent.save (ckptName (e + 1))] else [])

/-- The trace of the loop from epoch `e` with `r` epochs remaining and
early-stopping state `s`: each iteration emits its body, updates the
early-stopping state, and `break`s when
`no_decrease_epochs > early_stopping_epochs`; on exit (break or
exhaustion) the final `torch.save` of main.py line 169 is emitted. -/
def trainGo (cfg : TrainCfg) (tl vl : ℕ → ℚ) : ℕ → ℕ → ℚ × ℕ → List TrainEvent
  | 0, _, _ => [TrainEvent.save finalCkptName]
  | r + 1, e, s =>
      let s2 := esUpdate cfg vl e s
      epochBody cfg tl e
        ++ (if cfg.esEpochs < s2.2 then [TrainEvent.save finalCkptName]
            else trainGo cfg tl vl r (e + 1) s2)

/-- The full event trace of `train` (main.py lines 97-170). -/
def trainTrace (cfg : TrainCfg) (tl vl : ℕ → ℚ) : List TrainEvent :=
  trainGo cfg tl vl cfg.epochs 0 (0, 0)

/-- Whether an event is an `epoch_train` pass. -/
def isTrainEv : TrainEvent → Bool
  | TrainEvent.train _ => true
  | _ => false

/-- Projection of a `torch.save` event to its file name. -/
def saveOf : TrainEvent → Option String
  | TrainEvent.save s => some s
  | _ => none

/-- The number of epochs the loop actually executes. -/
def trainedEpochs (cfg : TrainCfg) (tl vl : ℕ → ℚ) : ℕ :=
  (trainTrace cfg tl vl).countP isTrainEv

/-- The number of epochs executed from epoch `e` with `r` remaining and
early-stopping state `s` (the epoch-counting skeleton of `trainGo`). -/
def execFrom (cfg : TrainCfg) (vl : ℕ → ℚ) : ℕ → ℕ → ℚ × ℕ → ℕ
  | 0, _, _ => 0
  | r + 1, e, s =>
      let s2 := esUpdate cfg vl e s
      if cfg.esEpochs < s2.2 then 1 else 1 + execFrom cfg vl r (e + 1) s2

/-! ### main.py wiring (config, parse_args, main) -/

/-- The command-line arguments `parse_args` produces (main.py lines
33-78). `epochs` carries the value of the `--epochs` option
(default 10). -/
structure Args where
  train : Bool
  test : Bool
  inference : Bool
  weights : String
  epochs : Int
  viz : Bool
  showData : Bool

/-- The module-level `config` dict of main.py lines 22-30 (the `device`
entry, a torch handle, is omitted). -/
structure MainConfig where
  dataDir : String
  epochs : ℕ
  batchSize : ℕ
  batchesPerEpoch : ℕ
  batchesPerEpochVal : ℕ
  learningRate : ℚ

/-- The values of the `config` dict. -/
def mainConfig : MainConfig :=
  { dataDir := "data/FreiHAND_pub_v2"
  , epochs := 1000
  , batchSize := 64
  , batchesPerEpoch := 50
  , batchesPerEpochVal := 20
  , learningRate := 1 / 100 }

/-- The `ReduceLROnPlateau` configuration of main.py lines 189-195. -/
structure SchedulerCfg where
  factor : ℚ
  patience : ℕ
  threshold : ℚ

/-- `optim.lr_scheduler.ReduceLROnPlateau(optimizer=optimizer,
factor=0.5, patience=20, verbose=True, threshold=0.00001)`. -/
def mainScheduler : SchedulerCfg :=
  { factor := 1 / 2, patience := 20, threshold := 1 / 100000 }

/-- The `TrainCfg` that `main` invokes `train` with (main.py lines
201-213): `config["epochs"]`, `checkpoint_frequency = 100`,
`early_stopping_avg = 10`, `early_stopping_precision = 5`,
`early_stopping_epochs = 10`, and a non-None scheduler.  The parsed
command-line arguments are in scope but `args.epochs` is never read. -/
def mainTrainCfg (_a : Args) : TrainCfg :=
  { epochs := mainConfig.epochs
  , avg := 10
  , prec := 5
  , esEpochs := 10
  , freq := 100
  , hasScheduler := true }

/-! ### Concrete instances used by witnesses -/

/-- A constant-one rank-4 rational tensor. -/
def oneT4 : ℕ → ℕ → ℕ → ℕ → ℚ := fun _ _ _ _ => 1

/-- A constant-one rank-3 rational tensor (one batch sample). -/
def oneT3 : ℕ → ℕ → ℕ → ℚ := fun _ _ _ => 1

/-- A constant-one rank-2 rational tensor. -/
def oneT2 : ℕ → ℕ → ℚ := fun _ _ => 1

/-- A constant-one rank-1 rational tensor. -/
def oneT1 : ℕ → ℚ := fun _ => 1

/-- A small concrete training configuration for witnesses. -/
def witnessTrainCfg : TrainCfg :=
  { epochs := 3, avg := 1, prec := 0, esEpochs := 0, freq := 1, hasScheduler := true }

/-- A constant-zero loss sequence for witnesses. -/
def zeroSeq : ℕ → ℚ := fun _ => 0

/-! ### Theorems -/

/-- C1: the spec describes a regressor producing one 2D heatmap per hand
keypoint, but the model as written does not: on a batch of shape
`(1, 3, 224, 224)` with the default parameters
(`patch_size = 32`, `emb_size = 768`, `out_channels = 50`, `depth = 12`),
the `ClassificationHead` output of `ViT` has shape `[1, 50]` — a flat
per-image vector with one scalar per output channel, rank 2, not a
per-keypoint spatial map (which would be rank 4).  This contradicts the
declared purpose and the repository's own `IoULoss`, which reduces
heatmaps over the last two (spatial) axes. -/
theorem viT_output_shape_flat :
    viTShape 32 768 50 12 [1, 3, 224, 224] = [1, 50]
    ∧ (viTShape 32 768 50 12 [1, 3, 224, 224]).length = 2 :=
  ⟨rfl, rfl⟩

/-- C3: `IoULoss.forward(y_pred, y_true)` on shape `(B, K, H, W)` inputs
equals `1` minus the mean over the batch of per-heatmap values
`(intersection + EPSILON) / (union + EPSILON)`, where the intersection
is the sum over the last two axes of `y_true * y_pred`, the union is the
sum of `y_true ^ 2` plus the sum of `y_pred ^ 2` minus the intersection,
and `EPSILON = 1e-6 = 1/1000000`. -/
theorem iouLoss_forward_formula (B K H W : ℕ) (yPred yTrue : ℕ → ℕ → ℕ → ℕ → ℚ) :
    iouForward B K H W yPred yTrue =
      1 - (∑ b in Finset.range B, ∑ k in Finset.range K,
            ((∑ q in Finset.range H ×ˢ Finset.range W,
                yTrue b k q.1 q.2 * yPred b k q.1 q.2) + 1 / 1000000)
              / ((∑ q in Finset.range H ×ˢ Finset.range W, yTrue b k q.1 q.2 ^ 2)
                  + (∑ q in Finset.range H ×ˢ Finset.range W, yPred b k q.1 q.2 ^ 2)
                  - (∑ q in Finset.range H ×ˢ Finset.range W,
                      yTrue b k q.1 q.2 * yPred b k q.1 q.2)
                  + 1 / 1000000))
          / ((B : ℚ) * (K : ℚ)) := by
  simp [iouForward, opSum, iouEPSILON, Finset.sum_product, Nat.cast_mul]

/-- C9: `MultiHeadAttention.forward` with any non-None mask fails with
an `AttributeError` at the masking step (line 70 calls the nonexistent
tensor method `mask_fill`), so a masked attention output is never
produced; with `mask=None` the forward pass succeeds and returns the
unmasked attention output. -/
theorem mha_mask_attribute_error (cfg : MHACfg) (w : MHAWeights) (n : ℕ)
    (x : ℕ → ℕ → ℕ → ℝ) (m : ℕ → ℕ → ℕ → ℕ → Bool) :
    mhaForwardMasked cfg w n x (some m) = Except.error maskFillErrorMsg
    ∧ mhaForwardMasked cfg w n x none = Except.ok (mhaForward cfg w n x) :=
  ⟨rfl, rfl⟩

/-- C10: in exact arithmetic, `IoULoss.forward(y, y) = 0` for every
tensor `y` (of any nonempty batch shape `(B, K, H, W)`): the
intersection equals the union, each per-heatmap ratio is
`(s + EPSILON) / (s + EPSILON) = 1` (the denominator is positive since
`s` is a sum of squares), and the loss is `1 - mean(1) = 0`. -/
theorem iouLoss_self_eq_zero (B K H W : ℕ) (y : ℕ → ℕ → ℕ → ℕ → ℚ)
    (hB : 0 < B) (hK : 0 < K) :
    iouForward B K H W y y = 0 := by
  have key : ∀ b kk : ℕ,
      (opSum H W (fun b2 k2 h2 w2 => y b2 k2 h2 w2 * y b2 k2 h2 w2) b kk + iouEPSILON)
        / (opSum H W (fun b2 k2 h2 w2 => y b2 k2 h2 w2 ^ 2) b kk
            + opSum H W (fun b2 k2 h2 w2 => y b2 k2 h2 w2 ^ 2) b kk
            - opSum H W (fun b2 k2 h2 w2 => y b2 k2 h2 w2 * y b2 k2 h2 w2) b kk
            + iouEPSILON) = 1 := by
    intro b kk
    have hsq : opSum H W (fun b2 k2 h2 w2 => y b2 k2 h2 w2 ^ 2) b kk
        = opSum H W (fun b2 k2 h2 w2 => y b2 k2 h2 w2 * y b2 k2 h2 w2) b kk := by
      simp [opSum, sq]
    rw [hsq]
    have hnn : 0 ≤ opSum H W (fun b2 k2 h2 w2 => y b2 k2 h2 w2 * y b2 k2 h2 w2) b kk :=
      Finset.sum_nonneg fun _ _ => Finset.sum_nonneg fun _ _ => mul_self_nonneg _
    have heps : (0 : ℚ) < iouEPSILON := by norm_num [iouEPSILON]
    have harr : opSum H W (fun b2 k2 h2 w2 => y b2 k2 h2 w2 * y b2 k2 h2 w2) b kk
          + opSum H W (fun b2 k2 h2 w2 => y b2 k2 h2 w2 * y b2 k2 h2 w2) b kk
          - opSum H W (fun b2 k2 h2 w2 => y b2 k2 h2 w2 * y b2 k2 h2 w2) b kk
          + iouEPSILON
        = opSum H W (fun b2 k2 h2 w2 => y b2 k2 h2 w2 * y b2 k2 h2 w2) b kk
          + iouEPSILON := by ring
    rw [harr]
    exact div_self (by linarith)
  unfold iouForward
  rw [Finset.sum_congr rfl fun b _ => Finset.sum_congr rfl fun kk _ => key b kk]
  have hBK : ((B * K : ℕ) : ℚ) ≠ 0 :=
    Nat.cast_ne_zero.mpr (Nat.mul_pos hB hK).ne'
  simp [Finset.sum_const, hBK]
  rw [div_self]
  · ring
  · exact_mod_cast hBK

/-- C10 witness: the theorem applied to the constant-one `1×1×1×1`
heatmap batch. -/
theorem iouLoss_self_eq_zero_witness :
    0 < 1 ∧ iouForward 1 1 1 1 oneT4 oneT4 = 0 :=
  ⟨Nat.one_pos, iouLoss_self_eq_zero 1 1 1 1 oneT4 Nat.one_pos Nat.one_pos⟩

/-- C7: on a batch of `(b, in_channels, img_size, img_size)` images with
`patch_size` dividing `img_size`, `PatchEmbedding.forward` produces
`(img_size / patch_size)^2 + 1` tokens: token 0 is the learned class
token, token `i * (img_size / patch_size) + j + 1` is the non-overlapping
`patch_size × patch_size` patch at patch coordinates `(i, j)` projected
(by the strided convolution) to `emb_size` dimensions, and the learned
position embedding is added to every token. -/
theorem patchEmbedding_token_structure (inC p S : ℕ) (hp : 0 < p) (hS : 0 < S)
    (hdvd : p ∣ S) (wt : ℕ → ℕ → ℕ → ℕ → ℚ) (bias clsTok : ℕ → ℚ)
    (pos : ℕ → ℕ → ℚ) (x : ℕ → ℕ → ℕ → ℕ → ℚ) (b e : ℕ) :
    patchTokenCount p S S = (S / p) ^ 2 + 1
    ∧ patchEmbeddingTokens inC p S S wt bias clsTok pos x b 0 e = clsTok e + pos 0 e
    ∧ ∀ i j, i < S / p → j < S / p →
        patchEmbeddingTokens inC p S S wt bias clsTok pos x b (i * (S / p) + j + 1) e
          = conv2dPatchProj inC p wt bias (x b) e i j
            + pos (i * (S / p) + j + 1) e := by
  obtain ⟨q, rfl⟩ := hdvd
  have hq : 0 < q := Nat.pos_of_ne_zero (by rintro rfl; simp at hS)
  have hSdiv : p * q / p = q := Nat.mul_div_cancel_left q hp
  have hconv : conv2dOut p p (p * q) = q := by
    unfold conv2dOut
    obtain ⟨q2, rfl⟩ : ∃ q2, q = q2 + 1 := ⟨q - 1, by omega⟩
    have hsub : p * (q2 + 1) - p = p * q2 := by
      have : p * (q2 + 1) = p * q2 + p := by ring
      omega
    rw [hsub, Nat.mul_div_cancel_left q2 hp]
  refine ⟨?_, rfl, ?_⟩
  · unfold patchTokenCount
    rw [hconv, hSdiv, sq]
  · intro i j hi hj
    rw [hSdiv] at hi hj ⊢
    have hdix : (i * q + j) / q = i := by
      rw [Nat.add_comm, Nat.mul_comm, Nat.add_mul_div_left j i hq,
        Nat.div_eq_of_lt hj, Nat.zero_add]
    have hmod : (i * q + j) % q = j := by
      rw [Nat.add_comm, Nat.mul_comm, Nat.add_mul_mod_self_left,
        Nat.mod_eq_of_lt hj]
    simp only [patchEmbeddingTokens, hconv, hdix, hmod]

/-- C7 witness: the theorem applied to a `2 × 2` single-channel image
with `patch_size = 2` and constant-one parameters. -/
theorem patchEmbedding_token_structure_witness :
    0 < 2 ∧ 0 < 2 ∧ 2 ∣ 2 ∧
      (patchTokenCount 2 2 2 = (2 / 2) ^ 2 + 1
       ∧ patchEmbeddingTokens 1 2 2 2 oneT4 oneT1 oneT1 oneT2 oneT4 0 0 0
           = oneT1 0 + oneT2 0 0
       ∧ ∀ i j, i < 2 / 2 → j < 2 / 2 →
           patchEmbeddingTokens 1 2 2 2 oneT4 oneT1 oneT1 oneT2 oneT4 0
               (i * (2 / 2) + j + 1) 0
             = conv2dPatchProj 1 2 oneT4 oneT1 (oneT4 0) 0 i j
               + oneT2 (i * (2 / 2) + j + 1) 0) :=
  ⟨by norm_num, by norm_num, ⟨1, rfl⟩,
    patchEmbedding_token_structure 1 2 2 (by norm_num) (by norm_num) ⟨1, rfl⟩
      oneT4 oneT1 oneT1 oneT2 oneT4 0 0⟩

/-- C2 counterexample: the claim asserts that the softmax is taken over
the key dimension so that, for each query, the attention weights sum
to 1 over the keys.  In the code the softmax is over `dim=1` (the head
axis) and the result is then divided by `sqrt(emb_size)`, so on the
concrete instance `emb_size = 1`, `num_heads = 1`, zero weights and a
zero 2-token input, the attention weights of query 0 sum over the keys
to 2, not 1. -/
theorem mha_keysum_counterexample :
    ¬ (∑ k in Finset.range 2, mhaAttention cexCfg cexW cexX 0 0 0 k) = 1 := by
  have hone : ∀ k : ℕ, mhaAttention cexCfg cexW cexX 0 0 0 k = 1 := by
    intro k
    simp [mhaAttention, mhaSoftmax, mhaEnergy, mhaQueries, mhaKeys, linearMap,
      dHead, cexCfg, cexW, cexX, Real.exp_zero, Real.sqrt_one]
  rw [Finset.sum_range_succ, Finset.sum_range_succ, Finset.sum_range_zero,
    hone 0, hone 1]
  norm_num

/-- C2 amended: `MultiHeadAttention.forward` computes the query-key
energies as unscaled dot products, takes the softmax over the HEAD axis
(`dim=1` of the `(b, h, q, k)` energy tensor), and divides by
`sqrt(emb_size)` (the full embedding size, not the per-head dimension)
AFTER the softmax; consequently, for every query-key pair, the attention
weights sum over the heads to `1 / sqrt(emb_size)` (so per-query key
sums are not normalised to 1); the weighted sum of the values is then
projected to the output. -/
theorem mha_attention_head_sums (cfg : MHACfg) (w : MHAWeights)
    (x : ℕ → ℕ → ℕ → ℝ) (b q k : ℕ) (hH : 0 < cfg.numHeads) :
    ∑ h in Finset.range cfg.numHeads, mhaAttention cfg w x b h q k
      = 1 / Real.sqrt (cfg.embSize : ℝ) := by
  have hpos : 0 < ∑ h2 in Finset.range cfg.numHeads,
      Real.exp (mhaEnergy cfg w x b h2 q k) :=
    Finset.sum_pos (fun _ _ => Real.exp_pos _)
      (Finset.nonempty_range_iff.mpr hH.ne')
  simp only [mhaAttention, mhaSoftmax]
  rw [← Finset.sum_div, ← Finset.sum_div, div_self hpos.ne']

/-- C2 witness: the amended theorem applied at the concrete instance
`emb_size = 1`, `num_heads = 1`, zero weights and zero input. -/
theorem mha_attention_head_sums_witness :
    0 < cexCfg.numHeads
    ∧ ∑ h in Finset.range cexCfg.numHeads, mhaAttention cexCfg cexW cexX 0 0 0 h
        = 1 / Real.sqrt (cexCfg.embSize : ℝ) :=
  ⟨Nat.one_pos, mha_attention_head_sums cexCfg cexW cexX 0 0 0 Nat.one_pos⟩

/-- Each epoch body contains exactly one `epoch_train` event. -/
theorem countP_epochBody (cfg : TrainCfg) (tl : ℕ → ℚ) (e : ℕ) :
    (epochBody cfg tl e).countP isTrainEv = 1 := by
  cases hs : cfg.hasScheduler <;> by_cases hc : (e + 1) % cfg.freq = 0 <;>
    simp [epochBody, hs, hc, List.countP_append, List.countP_cons, isTrainEv]

/-- The number of `epoch_train` events in the trace is the number of
epochs the counting skeleton `execFrom` reports. -/
theorem trainGo_countP (cfg : TrainCfg) (tl vl : ℕ → ℚ) :
    ∀ r e s, (trainGo cfg tl vl r e s).countP isTrainEv = execFrom cfg vl r e s := by
  intro r
  induction r with
  | zero =>
      intro e s
      simp [trainGo, execFrom, List.countP_cons, isTrainEv]
  | succ r ih =>
      intro e s
      by_cases hc : cfg.esEpochs < (esUpdate cfg vl e s).2
      · simp [trainGo, execFrom, hc, List.countP_append, countP_epochBody,
          List.countP_cons, isTrainEv]
      · simp [trainGo, execFrom, hc, List.countP_append, countP_epochBody, ih]

/-- The loop executes at most the configured number of epochs. -/
theorem execFrom_le (cfg : TrainCfg) (vl : ℕ → ℚ) :
    ∀ r e s, execFrom cfg vl r e s ≤ r := by
  intro r
  induction r with
  | zero => intro e s; simp [execFrom]
  | succ r ih =>
      intro e s
      simp only [execFrom]
      split
      · omega
      · have := ih (e + 1) (esUpdate cfg vl e s)
        omega

/-- Structure of the trace: the executed epochs contribute their bodies
in order, and the final save is emitted on exit in every case. -/
theorem trainGo_eq_flatMap (cfg : TrainCfg) (tl vl : ℕ → ℚ) :
    ∀ r e s, trainGo cfg tl vl r e s
      = (List.range' e (execFrom cfg vl r e s)).flatMap (epochBody cfg tl)
        ++ [TrainEvent.save finalCkptName] := by
  intro r
  induction r with
  | zero => intro e s; simp [trainGo, execFrom]
  | succ r ih =>
      intro e s
      by_cases hc : cfg.esEpochs < (esUpdate cfg vl e s).2
      · simp [trainGo, execFrom, hc, List.range'_succ, List.flatMap_cons]
      · simp only [trainGo, execFrom, hc, if_false]
        rw [ih (e + 1) (esUpdate cfg vl e s), Nat.add_comm 1, List.range'_succ,
          List.flatMap_cons, List.append_assoc]

/-- Characterisation of the `no_decrease_epochs` counter after epoch `e`:
it exceeds `n` exactly when epoch `e` is at least `avg + n` (so none of
the first `avg` epochs is counted) and each of the `n + 1` consecutive
epochs `e - n, ..., e` failed to drop the rounded validation-loss mean
below the running minimum. -/
theorem esState_snd_gt_iff (cfg : TrainCfg) (vl : ℕ → ℚ) :
    ∀ n e, n < (esState cfg vl (e + 1)).2 ↔
      cfg.avg + n ≤ e ∧ ∀ j, j ≤ n →
        runningMin cfg vl (e - j) ≤ valAvgAt cfg vl (e - j) := by
  intro n
  induction n with
  | zero =>
      intro e
      simp only [esState, esUpdate, runningMin]
      by_cases ha : e < cfg.avg
      · simp [ha] <;> omega
      · by_cases hf : (esState cfg vl e).1 ≤ valAvgAt cfg vl e
        · simp only [ha, if_false, hf, if_true]
          constructor
          · intro _
            refine ⟨by omega, ?_⟩
            intro j hj
            have : j = 0 := by omega
            subst this
            simpa using hf
          · intro _
            omega
        · simp only [ha, if_false, hf, if_false]
          constructor
          · intro h
            omega
          · rintro ⟨-, hall⟩
            have := hall 0 (by omega)
            simp at this
            exact absurd this hf
  | succ n ih =>
      intro e
      simp only [esState, esUpdate, runningMin]
      by_cases ha : e < cfg.avg
      · simp [ha] <;> omega
      · by_cases hf : (esState cfg vl e).1 ≤ valAvgAt cfg vl e
        · simp only [ha, if_false, hf, if_true]
          rcases e with _ | e2
          · -- e = 0 with cfg.avg ≤ 0: both sides need avg + n + 1 ≤ 0, false,
            -- and the counter entering epoch 0 is 0.
            simp only [esState]
            constructor
            · intro h
              omega
            · rintro ⟨h, -⟩
              omega
          · have hstep : n + 1 < (esState cfg vl (e2 + 1)).2 + 1 ↔
                n < (esState cfg vl (e2 + 1)).2 := by omega
            rw [hstep, ih e2]
            constructor
            · rintro ⟨h1, h2⟩
              refine ⟨by omega, ?_⟩
              intro j hj
              rcases Nat.eq_zero_or_pos j with rfl | hjpos
              · simpa [runningMin] using hf
              · obtain ⟨j2, rfl⟩ : ∃ j2, j = j2 + 1 := ⟨j - 1, by omega⟩
                have := h2 j2 (by omega)
                have harith : e2 + 1 - (j2 + 1) = e2 - j2 := by omega
                rwa [harith]
            · rintro ⟨h1, h2⟩
              refine ⟨by omega, ?_⟩
              intro j hj
              have := h2 (j + 1) (by omega)
              have harith : e2 + 1 - (j + 1) = e2 - j := by omega
              rwa [harith] at this
        · simp only [ha, if_false, hf, if_false]
          constructor
          · intro h
            omega
          · rintro ⟨-, hall⟩
            have := hall 0 (by omega)
            simp at this
            exact absurd this hf

/-- The loop stops short of `r` remaining epochs exactly when the break
condition fires at some epoch that leaves at least one later epoch
unexecuted. -/
theorem execFrom_lt_iff (cfg : TrainCfg) (vl : ℕ → ℚ) :
    ∀ r e, execFrom cfg vl r e (esState cfg vl e) < r ↔
      ∃ j, j + 1 < r ∧ cfg.esEpochs < (esState cfg vl (e + j + 1)).2 := by
  intro r
  induction r with
  | zero =>
      intro e
      simp [execFrom]
  | succ r ih =>
      intro e
      have hupd : esUpdate cfg vl e (esState cfg vl e) = esState cfg vl (e + 1) := rfl
      by_cases hc : cfg.esEpochs < (esState cfg vl (e + 1)).2
      · simp only [execFrom, hupd, hc, if_true]
        constructor
        · intro h
          exact ⟨0, by omega, by simpa using hc⟩
        · rintro ⟨j, hj, -⟩
          omega
      · simp only [execFrom, hupd, hc, if_false]
        have hlt : 1 + execFrom cfg vl r (e + 1) (esState cfg vl (e + 1)) < r + 1 ↔
            execFrom cfg vl r (e + 1) (esState cfg vl (e + 1)) < r := by omega
        rw [hlt, ih (e + 1)]
        constructor
        · rintro ⟨j, hj, htrig⟩
          refine ⟨j + 1, by omega, ?_⟩
          have harith : e + (j + 1) + 1 = e + 1 + j + 1 := by omega
          rwa [harith]
        · rintro ⟨j, hj, htrig⟩
          rcases Nat.eq_zero_or_pos j with rfl | hjpos
          · simp only [Nat.add_zero] at htrig
            exact absurd htrig hc
          · obtain ⟨j2, rfl⟩ : ∃ j2, j = j2 + 1 := ⟨j - 1, by omega⟩
            refine ⟨j2, by omega, ?_⟩
            have harith : e + (j2 + 1) + 1 = e + 1 + j2 + 1 := by omega
            rwa [harith] at htrig

/-- C4: the training loop stops before completing all configured epochs
if and only if at some epoch `e` that leaves at least one later epoch
unexecuted, the rounded (to `early_stopping_precision` decimals) mean of
the last `early_stopping_avg` validation losses has failed to drop below
the running minimum for strictly more than `early_stopping_epochs`
consecutive epochs (the `early_stopping_epochs + 1` epochs
`e - early_stopping_epochs, ..., e`); `cfg.avg + cfg.esEpochs ≤ e`
makes the first `early_stopping_avg` epochs never count toward the
streak.  The hypothesis `0 < cfg.avg` is the condition under which the
Python loop is defined at all (with `early_stopping_avg = 0` the first
iteration would read the unbound `min_val_loss`). -/
theorem train_early_stopping_iff (cfg : TrainCfg) (tl vl : ℕ → ℚ)
    (havg : 0 < cfg.avg) :
    trainedEpochs cfg tl vl < cfg.epochs ↔
      ∃ e, e + 1 < cfg.epochs ∧ cfg.avg + cfg.esEpochs ≤ e ∧
        ∀ j, j ≤ cfg.esEpochs →
          runningMin cfg vl (e - j) ≤ valAvgAt cfg vl (e - j) := by
  have h0 : trainedEpochs cfg tl vl
      = execFrom cfg vl cfg.epochs 0 (esState cfg vl 0) :=
    trainGo_countP cfg tl vl cfg.epochs 0 (esState cfg vl 0)
  rw [h0, execFrom_lt_iff]
  constructor
  · rintro ⟨j, hj, htrig⟩
    rw [show 0 + j + 1 = j + 1 by omega] at htrig
    rw [esState_snd_gt_iff cfg vl cfg.esEpochs j] at htrig
    exact ⟨j, hj, htrig.1, htrig.2⟩
  · rintro ⟨e, he, hge, hall⟩
    refine ⟨e, he, ?_⟩
    rw [show 0 + e + 1 = e + 1 by omega,
      esState_snd_gt_iff cfg vl cfg.esEpochs e]
    exact ⟨hge, hall⟩

/-- C4 witness: with `epochs = 3`, `early_stopping_avg = 1`,
`early_stopping_epochs = 0` and constant losses, the loop stops after
epoch 2 of 3, and the theorem applies. -/
theorem train_early_stopping_iff_witness :
    0 < witnessTrainCfg.avg
    ∧ (trainedEpochs witnessTrainCfg zeroSeq zeroSeq < witnessTrainCfg.epochs ↔
        ∃ e, e + 1 < witnessTrainCfg.epochs
          ∧ witnessTrainCfg.avg + witnessTrainCfg.esEpochs ≤ e
          ∧ ∀ j, j ≤ witnessTrainCfg.esEpochs →
              runningMin witnessTrainCfg zeroSeq (e - j)
                ≤ valAvgAt witnessTrainCfg zeroSeq (e - j)) :=
  ⟨Nat.one_pos,
    train_early_stopping_iff witnessTrainCfg zeroSeq zeroSeq Nat.one_pos⟩

/-- Pushing a `filterMap` inside a `flatMap`. -/
theorem filterMap_flatMap_comm {α β γ : Type} (l : List α) (f : α → List β)
    (g : β → Option γ) :
    (l.flatMap f).filterMap g = l.flatMap fun a => (f a).filterMap g := by
  induction l with
  | nil => simp
  | cons a l ih => simp [List.flatMap_cons, List.filterMap_append, ih]

/-- The saves of one epoch body: exactly the checkpoint of that epoch
when its 1-based index is a multiple of `checkpoint_frequency`. -/
theorem saveOf_epochBody (cfg : TrainCfg) (tl : ℕ → ℚ) (e : ℕ) :
    (epochBody cfg tl e).filterMap saveOf
      = if (e + 1) % cfg.freq = 0 then [ckptName (e + 1)] else [] := by
  cases hs : cfg.hasScheduler <;> by_cases hc : (e + 1) % cfg.freq = 0 <;>
    simp [epochBody, hs, hc, saveOf]

/-- Collecting the conditional checkpoint saves over a list of epoch
indices equals filtering the 1-based indices by divisibility. -/
theorem flatMap_checkpoint_filter (freq : ℕ) :
    ∀ l : List ℕ,
      (l.flatMap fun e => if (e + 1) % freq = 0 then [ckptName (e + 1)] else [])
        = ((l.map (· + 1)).filter fun k => freq ∣ k).map ckptName := by
  intro l
  induction l with
  | nil => simp
  | cons a l ih =>
      by_cases hc : (a + 1) % freq = 0
      · have hd : freq ∣ (a + 1) := Nat.dvd_iff_mod_eq_zero.mpr hc
        simp [List.flatMap_cons, hc, ih, hd]
      · have hd : ¬ freq ∣ (a + 1) := fun h => hc (Nat.dvd_iff_mod_eq_zero.mp h)
        simp [List.flatMap_cons, hc, ih, hd]

/-- C5: during training the weights are checkpointed exactly at the
executed epochs whose 1-based index is a multiple of
`checkpoint_frequency`, under the name `ckptName` (which zero-pads the
epoch number to width 3), in order, and a final checkpoint
`weights/ViT_model_final.pth` is saved when the loop exits — whether it
ran all epochs or stopped early (both exits reach main.py line 169).
The hypothesis `0 < cfg.freq` is the condition for the Python modulo on
line 144 to be defined. -/
theorem train_checkpoint_saves (cfg : TrainCfg) (tl vl : ℕ → ℚ)
    (hfreq : 0 < cfg.freq) :
    (trainTrace cfg tl vl).filterMap saveOf
      = ((((List.range (trainedEpochs cfg tl vl)).map (· + 1)).filter
            fun k => cfg.freq ∣ k).map ckptName)
        ++ [finalCkptName] := by
  have h0 : trainedEpochs cfg tl vl = execFrom cfg vl cfg.epochs 0 (0, 0) :=
    trainGo_countP cfg tl vl cfg.epochs 0 (0, 0)
  rw [h0, show trainTrace cfg tl vl = trainGo cfg tl vl cfg.epochs 0 (0, 0) from rfl,
    trainGo_eq_flatMap, List.filterMap_append, filterMap_flatMap_comm]
  have hbody : (fun e => (epochBody cfg tl e).filterMap saveOf)
      = fun e => if (e + 1) % cfg.freq = 0 then [ckptName (e + 1)] else [] :=
    funext fun e => saveOf_epochBody cfg tl e
  rw [hbody, ← List.range_eq_range', flatMap_checkpoint_filter cfg.freq]
  simp [saveOf]

/-- C5 witness: the theorem applied to the concrete configuration with
`checkpoint_frequency = 1`. -/
theorem train_checkpoint_saves_witness :
    0 < witnessTrainCfg.freq
    ∧ (trainTrace witnessTrainCfg zeroSeq zeroSeq).filterMap saveOf
        = ((((List.range (trainedEpochs witnessTrainCfg zeroSeq zeroSeq)).map
              (· + 1)).filter fun k => witnessTrainCfg.freq ∣ k).map ckptName)
          ++ [finalCkptName] :=
  ⟨Nat.one_pos,
    train_checkpoint_saves witnessTrainCfg zeroSeq zeroSeq Nat.one_pos⟩

/-- C6: when a (non-None) scheduler is passed — as `main` does — every
executed epoch emits exactly one `scheduler.step` event, placed after
that epoch's train and validation passes and carrying that epoch's
training loss `loss["train"][-1]`; and the scheduler `main` constructs
is `ReduceLROnPlateau` with `factor = 0.5` (halving the learning rate
when the stepped training loss stops improving), `patience = 20` and
`threshold = 1e-5`. -/
theorem train_scheduler_step_per_epoch (cfg : TrainCfg) (tl vl : ℕ → ℚ)
    (hsched : cfg.hasScheduler = true) :
    trainTrace cfg tl vl
      = (List.range (trainedEpochs cfg tl vl)).flatMap
          (fun e => [TrainEvent.train e, TrainEvent.val e, TrainEvent.sched (tl e)]
            ++ if (e + 1) % cfg.freq = 0
               then [TrainEvent.save (ckptName (e + 1))] else [])
        ++ [TrainEvent.save finalCkptName]
    ∧ mainScheduler.factor = 1 / 2 ∧ mainScheduler.patience = 20
    ∧ mainScheduler.threshold = 1 / 100000 := by
  refine ⟨?_, rfl, rfl, rfl⟩
  have h0 : trainedEpochs cfg tl vl = execFrom cfg vl cfg.epochs 0 (0, 0) :=
    trainGo_countP cfg tl vl cfg.epochs 0 (0, 0)
  rw [h0, show trainTrace cfg tl vl = trainGo cfg tl vl cfg.epochs 0 (0, 0) from rfl,
    trainGo_eq_flatMap, ← List.range_eq_range']
  have hbody : epochBody cfg tl
      = fun e => [TrainEvent.train e, TrainEvent.val e, TrainEvent.sched (tl e)]
          ++ if (e + 1) % cfg.freq = 0
             then [TrainEvent.save (ckptName (e + 1))] else [] := by
    funext e
    simp [epochBody, hsched]
  rw [hbody]

/-- C6 witness: the theorem applied to the concrete configuration, whose
`hasScheduler` flag is true. -/
theorem train_scheduler_step_per_epoch_witness :
    witnessTrainCfg.hasScheduler = true
    ∧ (trainTrace witnessTrainCfg zeroSeq zeroSeq
        = (List.range (trainedEpochs witnessTrainCfg zeroSeq zeroSeq)).flatMap
            (fun e => [TrainEvent.train e, TrainEvent.val e,
                TrainEvent.sched (zeroSeq e)]
              ++ if (e + 1) % witnessTrainCfg.freq = 0
                 then [TrainEvent.save (ckptName (e + 1))] else [])
          ++ [TrainEvent.save finalCkptName]
      ∧ mainScheduler.factor = 1 / 2 ∧ mainScheduler.patience = 20
      ∧ mainScheduler.threshold = 1 / 100000) :=
  ⟨rfl, train_scheduler_step_per_epoch witnessTrainCfg zeroSeq zeroSeq rfl⟩

/-- C8: the `--epochs` command-line argument has no effect on training:
`main` always invokes `train` with `config["epochs"] = 1000`, so the
training configuration is the same for any two parsed argument records,
its epoch count is 1000, and the number of executed epochs is at most
1000 (fewer only when early stopping triggers) regardless of the value
passed to `--epochs`. -/
theorem main_epochs_arg_unused (a a2 : Args) (tl vl : ℕ → ℚ) :
    mainTrainCfg a = mainTrainCfg a2
    ∧ (mainTrainCfg a).epochs = 1000
    ∧ trainedEpochs (mainTrainCfg a) tl vl ≤ 1000 := by
  refine ⟨rfl, rfl, ?_⟩
  calc trainedEpochs (mainTrainCfg a) tl vl
      = execFrom (mainTrainCfg a) vl (mainTrainCfg a).epochs 0 (0, 0) :=
        trainGo_countP (mainTrainCfg a) tl vl (mainTrainCfg a).epochs 0 (0, 0)
    _ ≤ (mainTrainCfg a).epochs :=
        execFrom_le (mainTrainCfg a) vl (mainTrainCfg a).epochs 0 (0, 0)
    _ = 1000 := rfl

end ViTPose
